import Mathlib

/-! # Verification of `projection.c` (equirectangular-remap)

A shallow embedding of the map generator of `projection.c`:

* the two projection evaluators `evaluatePixel_Front` and
  `evaluatePixel_Equirectangular`, over real arithmetic (`double` is read as `ℝ`);
* the generation loop `gen_maps`, as explicit state passing over the two grids;
* the option loop of `parse_options`, over the sequence of values that
  `getopt_long` hands back;
* the raster writer `pgmWrite_ASCII` and the control flow of `main`.

Console output (`printf` to stdout) is not part of the model.
-/

namespace Projection

/-! ## Geometry primitives -/

/-- The C struct `double2`. -/
structure double2 where
  x : ℝ
  y : ℝ

/-- The C struct `double3`. -/
structure double3 where
  x : ℝ
  y : ℝ
  z : ℝ

/-- The C struct `polar2`. -/
structure polar2 where
  r : ℝ
  theta : ℝ

/-- The C struct `polar3`. -/
structure polar3 where
  r : ℝ
  theta : ℝ
  phi : ℝ

/-- The C enum `CameraMode`. -/
inductive CameraMode where
  | FRONT
  | EQUIRECTANGULAR
  deriving DecidableEq, Repr

/-- A C string pointer: `none` is the null pointer. -/
abbrev CString := Option String

/-- The C struct `configuration`. -/
structure configuration where
  xmap_filename : CString
  ymap_filename : CString
  xmap_set : Int
  ymap_set : Int
  rows : Int
  cols : Int
  height : Int
  width : Int
  rows_set : Int
  cols_set : Int
  height_set : Int
  width_set : Int
  crop : Int
  mode : CameraMode
  thetaAdj : ℝ

/-- Smallest value of the C type `int` (32 bits). -/
def INT_MIN : Int := -2147483648

/-- Largest value of the C type `int` (32 bits). -/
def INT_MAX : Int := 2147483647

/-- A value of the C type `int`. -/
def isInt (v : Int) : Prop := INT_MIN ≤ v ∧ v ≤ INT_MAX

instance (v : Int) : Decidable (isInt v) := by
  unfold isInt; infer_instance

/-! ## C library functions used by the evaluators -/

/-- The C library `round`: nearest integer, halfway cases away from zero. -/
noncomputable def c_round (v : ℝ) : Int :=
  if 0 ≤ v then ⌊v + 1 / 2⌋ else ⌈v - 1 / 2⌉

/-- The C library `atan2 (y, x)`: the angle of the point `(x, y)` in `(-π, π]`,
and `0` at the origin. -/
noncomputable def c_atan2 (y x : ℝ) : ℝ := Complex.arg ⟨x, y⟩

/-- The C library `acos`, on its domain `[-1, 1]`. -/
noncomputable def c_acos (v : ℝ) : ℝ := Real.arccos v

/-- The constant `M_PI`. -/
noncomputable def M_PI : ℝ := Real.pi

/-- The conversion `(int) d` of a double holding the integer `v`: the value
itself when it is representable, and no defined result otherwise. -/
def double_to_int (v : Int) : Option Int :=
  if INT_MIN ≤ v ∧ v ≤ INT_MAX then some v else none

/-! ## Projection evaluators -/

/-- Front mode, first angle: `theta = (1.0 - outPos.x) * M_PI`. -/
noncomputable def Front_theta (outPos : double2) : ℝ := (1 - outPos.x) * M_PI

/-- Front mode, second angle: `phi = outPos.y * M_PI`. -/
noncomputable def Front_phi (outPos : double2) : ℝ := outPos.y * M_PI

/-- Front mode, the point on the unit sphere. -/
noncomputable def Front_sphericCoords (outPos : double2) : double3 :=
  { x := Real.cos (Front_theta outPos) * Real.sin (Front_phi outPos)
    y := Real.sin (Front_theta outPos) * Real.sin (Front_phi outPos)
    z := Real.cos (Front_phi outPos) }

/-- Front mode: `theta2 = atan2(-sphericCoords.z, sphericCoords.x)`. -/
noncomputable def Front_theta2 (outPos : double2) : ℝ :=
  c_atan2 (-(Front_sphericCoords outPos).z) (Front_sphericCoords outPos).x

/-- Front mode: `phi2_over_pi = acos(sphericCoords.y) / M_PI`. -/
noncomputable def Front_phi2_over_pi (outPos : double2) : ℝ :=
  c_acos (Front_sphericCoords outPos).y / M_PI

/-- The function `evaluatePixel_Front`. -/
noncomputable def evaluatePixel_Front (outPos srcSize : double2) : double2 :=
  { x := (Front_phi2_over_pi outPos * Real.cos (Front_theta2 outPos) + 0.5) * srcSize.x
    y := (Front_phi2_over_pi outPos * Real.sin (Front_theta2 outPos) + 0.5) * srcSize.y }

/-- Equirectangular mode: the mirrored position `cartesianCoordsPlane`. -/
noncomputable def Equirect_cartesianCoordsPlane (outPos : double2) : double2 :=
  { x := 1 - outPos.x
    y := 1 - outPos.y }

/-- Equirectangular mode: the point `polarCoordsSphere` (its radius is never
assigned nor read; it is kept at `1`, the unit sphere). -/
noncomputable def Equirect_polarCoordsSphere (outPos : double2) (thetaAdj : ℝ) : polar3 :=
  { r := 1
    theta := ((Equirect_cartesianCoordsPlane outPos).x - thetaAdj) * 2 * M_PI
    phi := (Equirect_cartesianCoordsPlane outPos).y * M_PI / 2 + M_PI / 2 }

/-- Equirectangular mode: the divisor `1.0 - cos(polarCoordsSphere.phi)` of the
stereographic step. -/
noncomputable def Equirect_divisor (outPos : double2) (thetaAdj : ℝ) : ℝ :=
  1 - Real.cos (Equirect_polarCoordsSphere outPos thetaAdj).phi

/-- Equirectangular mode: the planar polar point `polarCoordsPlane`. -/
noncomputable def Equirect_polarCoordsPlane (outPos : double2) (thetaAdj : ℝ) : polar2 :=
  { r := Real.sin (Equirect_polarCoordsSphere outPos thetaAdj).phi
          / Equirect_divisor outPos thetaAdj
    theta := (Equirect_polarCoordsSphere outPos thetaAdj).theta }

/-- The function `evaluatePixel_Equirectangular`. -/
noncomputable def evaluatePixel_Equirectangular (outPos srcSize : double2) (thetaAdj : ℝ) :
    double2 :=
  { x := ((Equirect_polarCoordsPlane outPos thetaAdj).r
            * Real.cos (Equirect_polarCoordsPlane outPos thetaAdj).theta + 1) / 2 * srcSize.x
    y := ((Equirect_polarCoordsPlane outPos thetaAdj).r
            * Real.sin (Equirect_polarCoordsPlane outPos thetaAdj).theta + 1) / 2 * srcSize.y }

/-! ## Map generator -/

/-- A grid `int **image`, read as `image[y][x]`. -/
abbrev Grid := Nat → Nat → Int

/-- The assignment `image[y][x] = v`. -/
def Grid.set (g : Grid) (y x : Nat) (v : Int) : Grid :=
  fun y' x' => if y' = y ∧ x' = x then v else g y' x'

/-- The evaluator that `gen_maps` selects for the cell `(y, x)`: the body of the
inner loop up to the `switch`, whose `default` branch no value of `CameraMode`
reaches. -/
noncomputable def gen_maps_pixel (cfg : configuration) (y x : Nat) : double2 :=
  let outPos : double2 := { x := (x : ℝ) / (cfg.cols : ℝ), y := (y : ℝ) / (cfg.rows : ℝ) }
  let srcSize : double2 := { x := (cfg.width : ℝ), y := (cfg.height : ℝ) }
  match cfg.mode with
  | CameraMode.FRONT => evaluatePixel_Front outPos srcSize
  | CameraMode.EQUIRECTANGULAR => evaluatePixel_Equirectangular outPos srcSize cfg.thetaAdj

/-- One iteration of the inner loop of `gen_maps`: evaluate the pixel, round,
convert to `int` and store into both grids. -/
noncomputable def gen_maps_cell (cfg : configuration) (y : Nat) (st : Grid × Grid) (x : Nat) :
    Option (Grid × Grid) :=
  let o := gen_maps_pixel cfg y x
  match double_to_int (c_round o.x) with
  | none => none
  | some vx =>
    match double_to_int (c_round o.y) with
    | none => none
    | some vy => some (st.1.set y x vx, st.2.set y x vy)

/-- The inner loop `for (x = 0; x < cfg.cols; x++)` of `gen_maps`. -/
noncomputable def gen_maps_row (cfg : configuration) (st : Grid × Grid) (y : Nat) :
    Option (Grid × Grid) :=
  (List.range cfg.cols.toNat).foldlM (gen_maps_cell cfg y) st

/-- The function `gen_maps`: the two grids after both loops, or `none` when a
conversion to `int` has no defined result. -/
noncomputable def gen_maps (cfg : configuration) (image_x image_y : Grid) :
    Option (Grid × Grid) :=
  (List.range cfg.rows.toNat).foldlM (gen_maps_row cfg) (image_x, image_y)

/-- The C type invariant of the `int` fields that the generator reads. -/
def configuration.wf (cfg : configuration) : Prop :=
  isInt cfg.rows ∧ isInt cfg.cols ∧ isInt cfg.height ∧ isInt cfg.width

/-! ## Option parsing -/

/-- The C library `isspace` in the "C" locale. -/
def isspace (c : Char) : Bool :=
  c = ' ' || (9 ≤ c.toNat && c.toNat ≤ 13)

/-- The digit loop of `strtol` in base 10: accumulate the leading decimal digits. -/
def strtol_digits : Int → List Char → Int
  | acc, [] => acc
  | acc, c :: cs =>
    if c.isDigit then strtol_digits (acc * 10 + ((c.toNat : Int) - 48)) cs else acc

/-- Smallest value of the C type `long` (64 bits). -/
def LONG_MIN : Int := -9223372036854775808

/-- Largest value of the C type `long` (64 bits). -/
def LONG_MAX : Int := 9223372036854775807

/-- The C library `strtol (nptr, NULL, 10)`: leading white space, an optional
sign, decimal digits; the value is clamped to the range of `long`. -/
def strtol (nptr : List Char) : Int :=
  let v : Int :=
    match nptr.dropWhile isspace with
    | '-' :: cs => - strtol_digits 0 cs
    | '+' :: cs => strtol_digits 0 cs
    | cs => strtol_digits 0 cs
  if v < LONG_MIN then LONG_MIN else if LONG_MAX < v then LONG_MAX else v

/-- The conversion `(int) l` of a `long`: the low 32 bits, two's complement. -/
def long_to_int (l : Int) : Int := (l + 2147483648) % 4294967296 - 2147483648

/-- The C library `atoi`, which is `(int) strtol (nptr, NULL, 10)`. -/
def atoi (nptr : String) : Int := long_to_int (strtol nptr.toList)

/-- One value handed back by `getopt_long` for the option table of
`parse_options`, with its `optarg` where the option takes one. -/
inductive Opt where
  /-- The long options `--verbose` and `--brief`: `getopt_long` stores `value` in
  `verbose_flag` and returns 0. -/
  | flag (value : Int)
  /-- The option `-q` or `--help`. -/
  | help
  /-- The code `'?'`: an option that is not in the table or lacks its argument. -/
  | unknown
  | xmap (optarg : String)
  | ymap (optarg : String)
  | rows (optarg : String)
  | cols (optarg : String)
  | height (optarg : String)
  | width (optarg : String)
  | mode (optarg : String)
  | crop (optarg : String)
  | thetaAdj (optarg : String)
  deriving DecidableEq, Repr

/-- How a function that may call `exit` ends: it returns a value or the process
exits with a status. -/
inductive Outcome (α : Type) where
  | ret (a : α)
  | exit (status : Int)

/-- The `while (1)` loop of `parse_options` over the values of `getopt_long`,
up to the end of the options (`c == -1`). The library `atof` is a parameter.
The counters are C `int`s that count options of one argument vector, whose
length is an `int`, so they do not overflow. The `default` branch (`abort`) is
not reached by a value that `getopt_long` returns for this option table. -/
def parse_options_loop (atof : String → ℝ) :
    configuration → List Opt → Outcome configuration
  | po, [] => Outcome.ret po
  | po, Opt.flag _ :: os => parse_options_loop atof po os
  | po, Opt.xmap optarg :: os =>
    parse_options_loop atof
      { po with xmap_filename := some optarg, xmap_set := po.xmap_set + 1 } os
  | po, Opt.ymap optarg :: os =>
    parse_options_loop atof
      { po with ymap_filename := some optarg, ymap_set := po.ymap_set + 1 } os
  | po, Opt.height optarg :: os =>
    parse_options_loop atof
      { po with height := atoi optarg, height_set := po.height_set + 1 } os
  | po, Opt.width optarg :: os =>
    parse_options_loop atof
      { po with width := atoi optarg, width_set := po.width_set + 1 } os
  | po, Opt.cols optarg :: os =>
    parse_options_loop atof
      { po with cols := atoi optarg, cols_set := po.cols_set + 1 } os
  | po, Opt.rows optarg :: os =>
    parse_options_loop atof
      { po with rows := atoi optarg, rows_set := po.rows_set + 1 } os
  | po, Opt.crop optarg :: os =>
    parse_options_loop atof { po with crop := atoi optarg } os
  | po, Opt.mode optarg :: os =>
    if optarg = "front" then
      parse_options_loop atof { po with mode := CameraMode.FRONT } os
    else if optarg = "equirectangular" then
      parse_options_loop atof { po with mode := CameraMode.EQUIRECTANGULAR } os
    else Outcome.exit 1
  | po, Opt.thetaAdj optarg :: os =>
    parse_options_loop atof { po with thetaAdj := atof optarg } os
  | _, Opt.unknown :: _ => Outcome.exit 1
  | _, Opt.help :: _ => Outcome.exit 1

/-- The initial assignments of `parse_options` to its local `po`, whose
indeterminate first content is `po0`: `height`, `width` and `crop` are not
assigned. -/
def parse_options_init (po0 : configuration) : configuration :=
  { po0 with
    xmap_filename := none, ymap_filename := none, xmap_set := 0, ymap_set := 0,
    rows := 0, cols := 0, rows_set := 0, cols_set := 0, height_set := 0, width_set := 0,
    mode := CameraMode.FRONT, thetaAdj := 0 }

/-- The function `parse_options`, over the options `opts` that `getopt_long`
yields in turn and the non-option arguments `rest` left at `optind`. -/
def parse_options (atof : String → ℝ) (po0 : configuration) (opts : List Opt)
    (rest : List String) : Outcome configuration :=
  match parse_options_loop atof (parse_options_init po0) opts with
  | Outcome.exit status => Outcome.exit status
  | Outcome.ret po =>
    if rest ≠ [] then Outcome.exit 1
    else if po.xmap_set ≠ 1 ∨ po.ymap_set ≠ 1 then Outcome.exit (-1)
    else if po.rows_set ≠ 1 ∨ po.cols_set ≠ 1 then Outcome.exit (-1)
    else if po.height_set ≠ 1 ∨ po.width_set ≠ 1 then Outcome.exit (-1)
    else Outcome.ret po

/-! ## Raster writer -/

/-- The constant `MAXROWS`. -/
def MAXROWS : Int := 4500

/-- The constant `MAXCOLS`. -/
def MAXCOLS : Int := 4500

/-- The conversion `%i` of `fprintf`. -/
def fmt_int (v : Int) : String := toString v

/-- What a call of `pgmWrite_ASCII` does: its return value, whether the file
was opened, the text written to it, and the counter `nwritten`. -/
structure WriteResult where
  status : Int
  opened : Bool
  text : String
  nwritten : Int
  deriving DecidableEq, Repr

/-- One iteration of the inner loop of `pgmWrite_ASCII`. -/
def pgmWrite_cell (image : Grid) (y : Nat) (st : String × Int) (x : Nat) : String × Int :=
  (st.1 ++ fmt_int (image y x) ++ " ", st.2 + 1)

/-- One iteration of the outer loop of `pgmWrite_ASCII`: the samples of row `y`
and the end of the line. -/
def pgmWrite_row (cols : Int) (image : Grid) (st : String × Int) (y : Nat) : String × Int :=
  let st1 := (List.range cols.toNat).foldl (pgmWrite_cell image y) st
  (st1.1 ++ "\n", st1.2)

/-- The function `pgmWrite_ASCII`; `fopen name` tells whether
`fopen (name, "w")` succeeds. -/
def pgmWrite_ASCII (fopen : CString → Bool) (filename : CString) (rows cols : Int)
    (image : Grid) (comment_string : CString) : WriteResult :=
  if rows > MAXROWS ∨ cols > MAXCOLS then
    { status := 0, opened := false, text := "", nwritten := 0 }
  else if fopen filename = false then
    { status := 0, opened := false, text := "", nwritten := 0 }
  else
    let t0 := "P2\n"
    let t1 := match comment_string with
      | some c => t0 ++ "# " ++ c ++ " \n"
      | none => t0
    let t2 := t1 ++ fmt_int cols ++ " " ++ fmt_int rows ++ " \n"
    let t3 := t2 ++ fmt_int 65535 ++ "\n"
    let st := (List.range rows.toNat).foldl (pgmWrite_row cols image) (t3, 0)
    { status := 1, opened := true, text := st.1 ++ "\n", nwritten := st.2 }

/-! ## Main -/

/-- The steps of `main` after `parse_options` that the claims speak of. -/
inductive Event where
  /-- The allocation of one grid. -/
  | alloc
  /-- The call of `gen_maps`. -/
  | generate
  /-- A call of `pgmWrite_ASCII` and what it did. -/
  | write (filename : CString) (result : WriteResult)
  deriving DecidableEq, Repr

/-- A run of `main`: the steps taken and the exit status. -/
structure Run where
  trace : List Event
  status : Int
  deriving DecidableEq, Repr

/-- The function `main`. The grids start with the indeterminate content
`mem_x`, `mem_y` of the allocated memory (allocation is taken to succeed);
`fopen_y` and `fopen_x` tell whether `fopen` succeeds at the first and at the
second call of the writer. The result is `none` when `gen_maps` has no defined
result. -/
noncomputable def main (atof : String → ℝ) (po0 : configuration) (mem_x mem_y : Grid)
    (fopen_y fopen_x : CString → Bool) (opts : List Opt) (rest : List String) : Option Run :=
  match parse_options atof po0 opts rest with
  | Outcome.exit status => some { trace := [], status := status }
  | Outcome.ret cfg =>
    match gen_maps cfg mem_x mem_y with
    | none => none
    | some (image_x, image_y) =>
      let wy := pgmWrite_ASCII fopen_y cfg.ymap_filename cfg.rows cfg.cols image_y
        cfg.ymap_filename
      let wx := pgmWrite_ASCII fopen_x cfg.xmap_filename cfg.rows cfg.cols image_x
        cfg.xmap_filename
      some { trace := [Event.alloc, Event.alloc, Event.generate,
                       Event.write cfg.ymap_filename wy, Event.write cfg.xmap_filename wx],
             status := 0 }

/-! ## The closed forms of the specification -/

/-- The front-mode source position of the cell `(row, col)` in the words of the
specification: target `R` rows by `C` columns, source extent `(W, H)`. -/
noncomputable def spec_Front (W H R C : ℝ) (row col : ℝ) : ℝ × ℝ :=
  let x := col / C
  let y := row / R
  let azimuth := (1 - x) * Real.pi
  let altitude := y * Real.pi
  let px := Real.cos azimuth * Real.sin altitude
  let py := Real.sin azimuth * Real.sin altitude
  let pz := Real.cos altitude
  let azimuth2 := c_atan2 (-pz) px
  let altitude2 := c_acos py / Real.pi
  ((altitude2 * Real.cos azimuth2 + 0.5) * W, (altitude2 * Real.sin azimuth2 + 0.5) * H)

/-- The equirectangular-mode source position of the cell `(row, col)` in the
words of the specification, with angular offset `t`. -/
noncomputable def spec_Equirect (W H R C t : ℝ) (row col : ℝ) : ℝ × ℝ :=
  let x := col / C
  let y := row / R
  let theta := ((1 - x) - t) * 2 * Real.pi
  let phi := (1 - y) * (Real.pi / 2) + Real.pi / 2
  let r := Real.sin phi / (1 - Real.cos phi)
  ((r * Real.cos theta + 1) / 2 * W, (r * Real.sin theta + 1) / 2 * H)

/-- The text that the specification asks of the writer for a `rows` by `cols`
grid: the header, then the samples `image[y][x]` in row-major order, each
followed by a blank, each row ended by a newline, and a closing newline. -/
def spec_pgm_text (rows cols : Nat) (image : Grid) (comment_string : CString) : String :=
  "P2\n"
    ++ (match comment_string with
        | some c => "# " ++ c ++ " \n"
        | none => "")
    ++ fmt_int cols ++ " " ++ fmt_int rows ++ " \n"
    ++ "65535\n"
    ++ String.join ((List.range rows).map (fun y =>
        String.join ((List.range cols).map (fun x => fmt_int (image y x) ++ " ")) ++ "\n"))
    ++ "\n"

/-- The samples of a `rows` by `cols` grid in row-major order. -/
def spec_pgm_samples (rows cols : Nat) (image : Grid) : List Int :=
  (List.range rows).flatMap (fun y => (List.range cols).map (fun x => image y x))

/-! ## Sample inputs -/

/-- A grid of zeros. -/
def zeroGrid : Grid := fun _ _ => 0

/-- The configuration of `-x x.pgm -y y.pgm -h 400 -w 400 -r 4 -c 4 -m front`. -/
def frontExample : configuration :=
  { xmap_filename := some "x.pgm", ymap_filename := some "y.pgm", xmap_set := 1, ymap_set := 1,
    rows := 4, cols := 4, height := 400, width := 400, rows_set := 1, cols_set := 1,
    height_set := 1, width_set := 1, crop := 0, mode := CameraMode.FRONT, thetaAdj := 0 }

/-- The configuration of
`-x test_x.pgm -y test_y.pgm -h 400 -w 400 -r 400 -c 400 -m equirectangular`. -/
def equirectExample : configuration :=
  { xmap_filename := some "test_x.pgm", ymap_filename := some "test_y.pgm", xmap_set := 1,
    ymap_set := 1, rows := 400, cols := 400, height := 400, width := 400, rows_set := 1,
    cols_set := 1, height_set := 1, width_set := 1, crop := 0,
    mode := CameraMode.EQUIRECTANGULAR, thetaAdj := 0 }

/-- A sample of the indeterminate first content of the local `po` of
`parse_options`. -/
def junkConfiguration : configuration :=
  { xmap_filename := some "?", ymap_filename := none, xmap_set := 7, ymap_set := -3,
    rows := 77, cols := -5, height := 12345, width := -1, rows_set := 2, cols_set := 1,
    height_set := 1, width_set := 9, crop := -7, mode := CameraMode.EQUIRECTANGULAR,
    thetaAdj := 1 }

/-- The arguments of `-x x.pgm -y y.pgm -r 4 -c 4 -h 400 -w 400 -m front`. -/
def frontArgs : List Opt :=
  [Opt.xmap "x.pgm", Opt.ymap "y.pgm", Opt.rows "4", Opt.cols "4", Opt.height "400",
   Opt.width "400", Opt.mode "front"]

/-- The arguments of `-x x.pgm -y y.pgm -r 4 -c 4 -h 400 -w 400 -m fisheye`. -/
def unknownModeArgs : List Opt :=
  [Opt.xmap "x.pgm", Opt.ymap "y.pgm", Opt.rows "4", Opt.cols "4", Opt.height "400",
   Opt.width "400", Opt.mode "fisheye"]

/-- The arguments of `-x x.pgm -y y.pgm -r 0 -c 5000 -h -1 -w abc`. -/
def unvalidatedArgs : List Opt :=
  [Opt.xmap "x.pgm", Opt.ymap "y.pgm", Opt.rows "0", Opt.cols "5000", Opt.height "-1",
   Opt.width "abc"]

/-- The arguments of `-x x.pgm -y y.pgm -r 5000 -c 5000 -h 400 -w 400`. -/
def tooLargeArgs : List Opt :=
  [Opt.xmap "x.pgm", Opt.ymap "y.pgm", Opt.rows "5000", Opt.cols "5000", Opt.height "400",
   Opt.width "400"]

/-- A sample grid, with `image[y][x] = 10 * y + x - 1`. -/
def sampleGrid : Grid := fun y x => 10 * (y : Int) + (x : Int) - 1

/-- A file system in which every file opens. -/
def fopen_ok : CString → Bool := fun _ => true

/-- An `atof` that reads every string as 0. -/
def atof_zero : String → ℝ := fun _ => 0

/-! ## The conditions of the specification on the option list -/

/-- The option is `-x` / `--xmap`. -/
def Opt.isXmap : Opt → Bool
  | Opt.xmap _ => true
  | _ => false

/-- The option is `-y` / `--ymap`. -/
def Opt.isYmap : Opt → Bool
  | Opt.ymap _ => true
  | _ => false

/-- The option is `-r` / `--rows`. -/
def Opt.isRows : Opt → Bool
  | Opt.rows _ => true
  | _ => false

/-- The option is `-c` / `--cols`. -/
def Opt.isCols : Opt → Bool
  | Opt.cols _ => true
  | _ => false

/-- The option is `-h` / `--height`. -/
def Opt.isHeight : Opt → Bool
  | Opt.height _ => true
  | _ => false

/-- The option is `-w` / `--width`. -/
def Opt.isWidth : Opt → Bool
  | Opt.width _ => true
  | _ => false

/-- Each of the six mandatory options occurs exactly once. -/
def mandatory_once (opts : List Opt) : Prop :=
  opts.countP Opt.isXmap = 1 ∧ opts.countP Opt.isYmap = 1 ∧ opts.countP Opt.isRows = 1 ∧
    opts.countP Opt.isCols = 1 ∧ opts.countP Opt.isHeight = 1 ∧ opts.countP Opt.isWidth = 1

instance (opts : List Opt) : Decidable (mandatory_once opts) := by
  unfold mandatory_once; infer_instance

/-- Every mode argument is `front` or `equirectangular`. -/
def modes_known (opts : List Opt) : Prop :=
  ∀ optarg : String, Opt.mode optarg ∈ opts → optarg = "front" ∨ optarg = "equirectangular"

/-! ## Rounding and conversion -/

theorem le_c_round {a : Int} {v : ℝ} (h : (a : ℝ) ≤ v) : a ≤ c_round v := by
  unfold c_round
  split_ifs with h0
  · exact Int.le_floor.2 (by linarith)
  · have h1 : a - 1 < ⌈v - 1 / 2⌉ := Int.lt_ceil.2 (by push_cast; linarith)
    omega

theorem c_round_le {b : Int} {v : ℝ} (h : v ≤ (b : ℝ)) : c_round v ≤ b := by
  unfold c_round
  split_ifs with h0
  · have h1 : ⌊v + 1 / 2⌋ < b + 1 := Int.floor_lt.2 (by push_cast; linarith)
    omega
  · exact Int.ceil_le.2 (by linarith)

theorem c_round_intCast (n : Int) : c_round (n : ℝ) = n :=
  le_antisymm (c_round_le le_rfl) (le_c_round le_rfl)

/-- The value of `c_round` is a nearest integer. -/
theorem c_round_near (v : ℝ) : |(c_round v : ℝ) - v| ≤ 1 / 2 := by
  unfold c_round
  split_ifs with h0
  · have h1 := Int.floor_le (v + 1 / 2)
    have h2 := Int.lt_floor_add_one (v + 1 / 2)
    rw [abs_le]; constructor <;> linarith
  · have h1 := Int.le_ceil (v - 1 / 2)
    have h2 := Int.ceil_lt_add_one (v - 1 / 2)
    rw [abs_le]; constructor <;> linarith

/-- Halfway cases of `c_round` go away from zero. -/
theorem c_round_half (n : Int) :
    c_round ((n : ℝ) + 1 / 2) = if 0 ≤ n then n + 1 else n := by
  have key : (0 : ℝ) ≤ (n : ℝ) + 1 / 2 ↔ 0 ≤ n := by
    constructor
    · intro h
      by_contra hn
      have : n ≤ -1 := by omega
      have : (n : ℝ) ≤ -1 := by exact_mod_cast this
      linarith
    · intro h
      have : (0 : ℝ) ≤ n := by exact_mod_cast h
      linarith
  unfold c_round
  by_cases hn : 0 ≤ n
  · rw [if_pos (key.2 hn), if_pos hn]
    have : (n : ℝ) + 1 / 2 + 1 / 2 = ((n + 1 : Int) : ℝ) := by push_cast; ring
    rw [this, Int.floor_intCast]
  · rw [if_neg (fun h => hn (key.1 h)), if_neg hn]
    have : (n : ℝ) + 1 / 2 - 1 / 2 = (n : ℝ) := by ring
    rw [this, Int.ceil_intCast]

theorem isInt_c_round_mul {t : ℝ} {W : Int} (h0 : 0 ≤ t) (h1 : t ≤ 1) (hW : isInt W) :
    isInt (c_round (t * (W : ℝ))) := by
  unfold isInt INT_MIN INT_MAX at *
  rcases le_total 0 W with hp | hn
  · have hWr : (0 : ℝ) ≤ W := by exact_mod_cast hp
    have a : (0 : Int) ≤ c_round (t * W) :=
      le_c_round (by push_cast; exact mul_nonneg h0 hWr)
    have b : c_round (t * W) ≤ W := c_round_le (by nlinarith)
    omega
  · have hWr : (W : ℝ) ≤ 0 := by exact_mod_cast hn
    have a : W ≤ c_round (t * W) := le_c_round (by nlinarith)
    have b : c_round (t * W) ≤ (0 : Int) := c_round_le (by push_cast; nlinarith)
    omega

theorem double_to_int_of_isInt {v : Int} (h : isInt v) : double_to_int v = some v := by
  unfold double_to_int
  exact if_pos h

/-! ## Bounds inside the evaluators -/

theorem Equirect_phi_mem {outPos : double2} (t : ℝ) (h0 : 0 ≤ outPos.y) (h1 : outPos.y ≤ 1) :
    Real.pi / 2 ≤ (Equirect_polarCoordsSphere outPos t).phi ∧
      (Equirect_polarCoordsSphere outPos t).phi ≤ Real.pi := by
  have hpi := Real.pi_pos
  simp only [Equirect_polarCoordsSphere, Equirect_cartesianCoordsPlane, M_PI]
  constructor <;> nlinarith

theorem Equirect_divisor_ge_one {outPos : double2} (t : ℝ) (h0 : 0 ≤ outPos.y)
    (h1 : outPos.y ≤ 1) : 1 ≤ Equirect_divisor outPos t := by
  obtain ⟨ha, hb⟩ := Equirect_phi_mem t h0 h1
  have hc : Real.cos (Equirect_polarCoordsSphere outPos t).phi ≤ 0 :=
    Real.cos_nonpos_of_pi_div_two_le_of_le ha (by linarith [Real.pi_pos])
  unfold Equirect_divisor
  linarith

theorem Equirect_r_mem {outPos : double2} (t : ℝ) (h0 : 0 ≤ outPos.y) (h1 : outPos.y ≤ 1) :
    0 ≤ (Equirect_polarCoordsPlane outPos t).r ∧ (Equirect_polarCoordsPlane outPos t).r ≤ 1 := by
  obtain ⟨ha, hb⟩ := Equirect_phi_mem t h0 h1
  have hd := Equirect_divisor_ge_one t h0 h1
  have hs : 0 ≤ Real.sin (Equirect_polarCoordsSphere outPos t).phi :=
    Real.sin_nonneg_of_nonneg_of_le_pi (by linarith [Real.pi_pos]) hb
  have hs1 := Real.sin_le_one (Equirect_polarCoordsSphere outPos t).phi
  have hpos : 0 < Equirect_divisor outPos t := by linarith
  simp only [Equirect_polarCoordsPlane]
  constructor
  · exact div_nonneg hs hpos.le
  · rw [div_le_one hpos]; linarith

/-- A product `r * c` with `0 ≤ r ≤ b` and `|c| ≤ 1` lies in `[-b, b]`. -/
theorem mul_trig_mem {r c b : ℝ} (hr0 : 0 ≤ r) (hr1 : r ≤ b) (hc0 : -1 ≤ c) (hc1 : c ≤ 1) :
    -b ≤ r * c ∧ r * c ≤ b := by
  constructor <;> nlinarith

theorem Equirect_factor_mem {outPos : double2} (t : ℝ) (h0 : 0 ≤ outPos.y)
    (h1 : outPos.y ≤ 1) :
    (0 ≤ ((Equirect_polarCoordsPlane outPos t).r
            * Real.cos (Equirect_polarCoordsPlane outPos t).theta + 1) / 2 ∧
      ((Equirect_polarCoordsPlane outPos t).r
            * Real.cos (Equirect_polarCoordsPlane outPos t).theta + 1) / 2 ≤ 1) ∧
    (0 ≤ ((Equirect_polarCoordsPlane outPos t).r
            * Real.sin (Equirect_polarCoordsPlane outPos t).theta + 1) / 2 ∧
      ((Equirect_polarCoordsPlane outPos t).r
            * Real.sin (Equirect_polarCoordsPlane outPos t).theta + 1) / 2 ≤ 1) := by
  obtain ⟨hr0, hr1⟩ := Equirect_r_mem t h0 h1
  obtain ⟨a1, a2⟩ := mul_trig_mem hr0 hr1
    (Real.neg_one_le_cos (Equirect_polarCoordsPlane outPos t).theta)
    (Real.cos_le_one (Equirect_polarCoordsPlane outPos t).theta)
  obtain ⟨b1, b2⟩ := mul_trig_mem hr0 hr1
    (Real.neg_one_le_sin (Equirect_polarCoordsPlane outPos t).theta)
    (Real.sin_le_one (Equirect_polarCoordsPlane outPos t).theta)
  refine ⟨⟨?_, ?_⟩, ⟨?_, ?_⟩⟩ <;> linarith

theorem Front_sphericCoords_y_mem {outPos : double2} (hx0 : 0 ≤ outPos.x) (hx1 : outPos.x ≤ 1)
    (hy0 : 0 ≤ outPos.y) (hy1 : outPos.y ≤ 1) :
    0 ≤ (Front_sphericCoords outPos).y ∧ (Front_sphericCoords outPos).y ≤ 1 := by
  have hpi := Real.pi_pos
  have ht : 0 ≤ Real.sin (Front_theta outPos) :=
    Real.sin_nonneg_of_nonneg_of_le_pi (by unfold Front_theta M_PI; nlinarith)
      (by unfold Front_theta M_PI; nlinarith)
  have hp : 0 ≤ Real.sin (Front_phi outPos) :=
    Real.sin_nonneg_of_nonneg_of_le_pi (by unfold Front_phi M_PI; nlinarith)
      (by unfold Front_phi M_PI; nlinarith)
  have ht1 := Real.sin_le_one (Front_theta outPos)
  have hp1 := Real.sin_le_one (Front_phi outPos)
  simp only [Front_sphericCoords]
  constructor
  · exact mul_nonneg ht hp
  · nlinarith

theorem Front_phi2_over_pi_mem {outPos : double2} (hx0 : 0 ≤ outPos.x) (hx1 : outPos.x ≤ 1)
    (hy0 : 0 ≤ outPos.y) (hy1 : outPos.y ≤ 1) :
    0 ≤ Front_phi2_over_pi outPos ∧ Front_phi2_over_pi outPos ≤ 1 / 2 := by
  have hpi := Real.pi_pos
  obtain ⟨h0, _⟩ := Front_sphericCoords_y_mem hx0 hx1 hy0 hy1
  have ha : Real.arccos (Front_sphericCoords outPos).y ≤ Real.pi / 2 :=
    Real.arccos_le_pi_div_two.2 h0
  have hb := Real.arccos_nonneg (Front_sphericCoords outPos).y
  simp only [Front_phi2_over_pi, c_acos, M_PI]
  constructor
  · exact div_nonneg hb hpi.le
  · rw [div_le_iff₀ hpi]; linarith

theorem Front_factor_mem {outPos : double2} (hx0 : 0 ≤ outPos.x) (hx1 : outPos.x ≤ 1)
    (hy0 : 0 ≤ outPos.y) (hy1 : outPos.y ≤ 1) :
    (0 ≤ Front_phi2_over_pi outPos * Real.cos (Front_theta2 outPos) + 0.5 ∧
      Front_phi2_over_pi outPos * Real.cos (Front_theta2 outPos) + 0.5 ≤ 1) ∧
    (0 ≤ Front_phi2_over_pi outPos * Real.sin (Front_theta2 outPos) + 0.5 ∧
      Front_phi2_over_pi outPos * Real.sin (Front_theta2 outPos) + 0.5 ≤ 1) := by
  obtain ⟨hr0, hr1⟩ := Front_phi2_over_pi_mem hx0 hx1 hy0 hy1
  obtain ⟨a1, a2⟩ := mul_trig_mem hr0 hr1 (Real.neg_one_le_cos (Front_theta2 outPos))
    (Real.cos_le_one (Front_theta2 outPos))
  obtain ⟨b1, b2⟩ := mul_trig_mem hr0 hr1 (Real.neg_one_le_sin (Front_theta2 outPos))
    (Real.sin_le_one (Front_theta2 outPos))
  refine ⟨⟨?_, ?_⟩, ⟨?_, ?_⟩⟩ <;> norm_num <;> linarith

/-! ## The generation loop -/

/-- The normalized position of a cell inside the grid lies in the unit square. -/
theorem outPos_mem {n : Int} {k : Nat} (hn : 0 < n) (hk : (k : Int) < n) :
    0 ≤ (k : ℝ) / (n : ℝ) ∧ (k : ℝ) / (n : ℝ) ≤ 1 := by
  have hn' : (0 : ℝ) < n := by exact_mod_cast hn
  have hk' : (k : ℝ) < n := by exact_mod_cast hk
  constructor
  · exact div_nonneg (Nat.cast_nonneg k) hn'.le
  · rw [div_le_one hn']; exact hk'.le

/-- In either mode each coordinate of a pixel inside the grid is the source
extent scaled by a factor in `[0, 1]`. -/
theorem gen_maps_pixel_factor (cfg : configuration) (hR : 0 < cfg.rows) (hC : 0 < cfg.cols)
    {y x : Nat} (hy : (y : Int) < cfg.rows) (hx : (x : Int) < cfg.cols) :
    ∃ tx ty : ℝ, (0 ≤ tx ∧ tx ≤ 1) ∧ (0 ≤ ty ∧ ty ≤ 1) ∧
      (gen_maps_pixel cfg y x).x = tx * (cfg.width : ℝ) ∧
      (gen_maps_pixel cfg y x).y = ty * (cfg.height : ℝ) := by
  obtain ⟨hx0, hx1⟩ := outPos_mem hC hx
  obtain ⟨hy0, hy1⟩ := outPos_mem hR hy
  unfold gen_maps_pixel
  cases cfg.mode with
  | FRONT =>
    obtain ⟨a, b⟩ := @Front_factor_mem ⟨(x : ℝ) / cfg.cols, (y : ℝ) / cfg.rows⟩ hx0 hx1 hy0 hy1
    exact ⟨_, _, a, b, rfl, rfl⟩
  | EQUIRECTANGULAR =>
    obtain ⟨a, b⟩ := @Equirect_factor_mem ⟨(x : ℝ) / cfg.cols, (y : ℝ) / cfg.rows⟩
      cfg.thetaAdj hy0 hy1
    exact ⟨_, _, a, b, rfl, rfl⟩

/-- For a configuration of C `int`s, the conversions to `int` in a cell inside
the grid are defined. -/
theorem gen_maps_pixel_isInt (cfg : configuration) (hwf : cfg.wf) (hR : 0 < cfg.rows)
    (hC : 0 < cfg.cols) {y x : Nat} (hy : (y : Int) < cfg.rows) (hx : (x : Int) < cfg.cols) :
    isInt (c_round (gen_maps_pixel cfg y x).x) ∧ isInt (c_round (gen_maps_pixel cfg y x).y) := by
  obtain ⟨tx, ty, ⟨a0, a1⟩, ⟨b0, b1⟩, ex, ey⟩ := gen_maps_pixel_factor cfg hR hC hy hx
  rw [ex, ey]
  exact ⟨isInt_c_round_mul a0 a1 hwf.2.2.2, isInt_c_round_mul b0 b1 hwf.2.2.1⟩

theorem gen_maps_cell_eq (cfg : configuration) (y x : Nat) (st : Grid × Grid)
    (h : isInt (c_round (gen_maps_pixel cfg y x).x) ∧ isInt (c_round (gen_maps_pixel cfg y x).y)) :
    gen_maps_cell cfg y st x
      = some (st.1.set y x (c_round (gen_maps_pixel cfg y x).x),
              st.2.set y x (c_round (gen_maps_pixel cfg y x).y)) := by
  simp only [gen_maps_cell, double_to_int_of_isInt h.1, double_to_int_of_isInt h.2]

/-- The inner loop over the first `n` columns: every cell `(y, c)` with `c < n`
holds its rounded pixel, every other cell is unchanged. -/
theorem gen_maps_cols_spec (cfg : configuration) (y : Nat) (st : Grid × Grid) (n : Nat)
    (h : ∀ x, x < n → isInt (c_round (gen_maps_pixel cfg y x).x) ∧
      isInt (c_round (gen_maps_pixel cfg y x).y)) :
    ∃ out : Grid × Grid, (List.range n).foldlM (gen_maps_cell cfg y) st = some out ∧
      (∀ r c, out.1 r c = if r = y ∧ c < n then c_round (gen_maps_pixel cfg y c).x
        else st.1 r c) ∧
      (∀ r c, out.2 r c = if r = y ∧ c < n then c_round (gen_maps_pixel cfg y c).y
        else st.2 r c) := by
  induction n with
  | zero => exact ⟨st, rfl, by simp, by simp⟩
  | succ n ih =>
    obtain ⟨mid, hmid, h1, h2⟩ := ih (fun x hx => h x (Nat.lt_succ_of_lt hx))
    refine ⟨(mid.1.set y n (c_round (gen_maps_pixel cfg y n).x),
      mid.2.set y n (c_round (gen_maps_pixel cfg y n).y)), ?_, ?_, ?_⟩
    · rw [List.range_succ, List.foldlM_append, hmid]
      simp only [Option.bind_eq_bind, Option.some_bind, List.foldlM_cons, List.foldlM_nil]
      rw [gen_maps_cell_eq cfg y n mid (h n (Nat.lt_succ_self n))]
      rfl
    · intro r c
      simp only [Grid.set, h1]
      by_cases hr : r = y <;> by_cases hc : c = n <;> by_cases hl : c < n <;>
        simp [hr, hc, hl] <;> omega
    · intro r c
      simp only [Grid.set, h2]
      by_cases hr : r = y <;> by_cases hc : c = n <;> by_cases hl : c < n <;>
        simp [hr, hc, hl] <;> omega

/-- The outer loop over the first `m` rows. -/
theorem gen_maps_rows_spec (cfg : configuration) (st : Grid × Grid) (m : Nat)
    (h : ∀ y x, y < m → x < cfg.cols.toNat → isInt (c_round (gen_maps_pixel cfg y x).x) ∧
      isInt (c_round (gen_maps_pixel cfg y x).y)) :
    ∃ out : Grid × Grid, (List.range m).foldlM (gen_maps_row cfg) st = some out ∧
      (∀ r c, out.1 r c = if r < m ∧ c < cfg.cols.toNat then c_round (gen_maps_pixel cfg r c).x
        else st.1 r c) ∧
      (∀ r c, out.2 r c = if r < m ∧ c < cfg.cols.toNat then c_round (gen_maps_pixel cfg r c).y
        else st.2 r c) := by
  induction m with
  | zero => exact ⟨st, rfl, by simp, by simp⟩
  | succ m ih =>
    obtain ⟨mid, hmid, h1, h2⟩ := ih (fun y x hy hx => h y x (Nat.lt_succ_of_lt hy) hx)
    obtain ⟨out, hout, g1, g2⟩ := gen_maps_cols_spec cfg m mid cfg.cols.toNat
      (fun x hx => h m x (Nat.lt_succ_self m) hx)
    refine ⟨out, ?_, ?_, ?_⟩
    · rw [List.range_succ, List.foldlM_append, hmid]
      simp only [Option.bind_eq_bind, Option.some_bind, List.foldlM_cons, List.foldlM_nil]
      rw [gen_maps_row, hout]
      rfl
    · intro r c
      rw [g1, h1]
      by_cases hr : r = m <;> by_cases hl : r < m <;> by_cases hc : c < cfg.cols.toNat <;>
        simp [hr, hl, hc] <;> omega
    · intro r c
      rw [g2, h2]
      by_cases hr : r = m <;> by_cases hl : r < m <;> by_cases hc : c < cfg.cols.toNat <;>
        simp [hr, hl, hc] <;> omega

/-- For a configuration of C `int`s with a non-empty target, `gen_maps` has a
result: every cell of the target holds its rounded pixel and every cell
outside the target keeps its content. -/
theorem gen_maps_spec (cfg : configuration) (image_x image_y : Grid) (hwf : cfg.wf)
    (hR : 0 < cfg.rows) (hC : 0 < cfg.cols) :
    ∃ out : Grid × Grid, gen_maps cfg image_x image_y = some out ∧
      (∀ r c, out.1 r c = if r < cfg.rows.toNat ∧ c < cfg.cols.toNat
        then c_round (gen_maps_pixel cfg r c).x else image_x r c) ∧
      (∀ r c, out.2 r c = if r < cfg.rows.toNat ∧ c < cfg.cols.toNat
        then c_round (gen_maps_pixel cfg r c).y else image_y r c) := by
  unfold gen_maps
  apply gen_maps_rows_spec cfg (image_x, image_y) cfg.rows.toNat
  intro y x hy hx
  exact gen_maps_pixel_isInt cfg hwf hR hC (by omega) (by omega)

/-! ## Code against closed form -/

theorem gen_maps_pixel_Front (cfg : configuration) (hmode : cfg.mode = CameraMode.FRONT)
    (y x : Nat) :
    (gen_maps_pixel cfg y x).x = (spec_Front cfg.width cfg.height cfg.rows cfg.cols y x).1 ∧
    (gen_maps_pixel cfg y x).y = (spec_Front cfg.width cfg.height cfg.rows cfg.cols y x).2 := by
  simp only [gen_maps_pixel, hmode, evaluatePixel_Front, Front_phi2_over_pi, Front_theta2,
    Front_sphericCoords, Front_theta, Front_phi, M_PI, spec_Front, and_self]

theorem gen_maps_pixel_Equirect (cfg : configuration)
    (hmode : cfg.mode = CameraMode.EQUIRECTANGULAR) (y x : Nat) :
    (gen_maps_pixel cfg y x).x
      = (spec_Equirect cfg.width cfg.height cfg.rows cfg.cols cfg.thetaAdj y x).1 ∧
    (gen_maps_pixel cfg y x).y
      = (spec_Equirect cfg.width cfg.height cfg.rows cfg.cols cfg.thetaAdj y x).2 := by
  have hphi : (1 - (y : ℝ) / (cfg.rows : ℝ)) * Real.pi / 2 + Real.pi / 2
      = (1 - (y : ℝ) / (cfg.rows : ℝ)) * (Real.pi / 2) + Real.pi / 2 := by ring
  simp only [gen_maps_pixel, hmode, evaluatePixel_Equirectangular, Equirect_polarCoordsPlane,
    Equirect_divisor, Equirect_polarCoordsSphere, Equirect_cartesianCoordsPlane, M_PI,
    spec_Equirect, hphi, and_self]

/-- C1. Front mode, end to end: for a configuration of C `int`s with mode
`FRONT`, `rows > 0` and `cols > 0`, `gen_maps` has a result, in which every cell
`(row, col)` of the target holds in `image_x` and `image_y` the C roundings of
the closed-form `sx` and `sy` of the specification; the result does not depend
on `cfg.thetaAdj`. -/
theorem gen_maps_Front_end_to_end (cfg : configuration) (image_x image_y : Grid)
    (hwf : cfg.wf) (hmode : cfg.mode = CameraMode.FRONT) (hR : 0 < cfg.rows)
    (hC : 0 < cfg.cols) :
    ∃ out : Grid × Grid, gen_maps cfg image_x image_y = some out ∧
      (∀ row col : Nat, (row : Int) < cfg.rows → (col : Int) < cfg.cols →
        out.1 row col
            = c_round (spec_Front cfg.width cfg.height cfg.rows cfg.cols row col).1 ∧
          out.2 row col
            = c_round (spec_Front cfg.width cfg.height cfg.rows cfg.cols row col).2) ∧
      (∀ t : ℝ, gen_maps { cfg with thetaAdj := t } image_x image_y = some out) := by
  obtain ⟨out, hout, h1, h2⟩ := gen_maps_spec cfg image_x image_y hwf hR hC
  refine ⟨out, hout, ?_, ?_⟩
  · intro row col hrow hcol
    have hin : row < cfg.rows.toNat ∧ col < cfg.cols.toNat := ⟨by omega, by omega⟩
    rw [h1, h2, if_pos hin, if_pos hin, (gen_maps_pixel_Front cfg hmode row col).1,
      (gen_maps_pixel_Front cfg hmode row col).2]
    exact ⟨rfl, rfl⟩
  · intro t
    obtain ⟨out', hout', g1, g2⟩ :=
      gen_maps_spec { cfg with thetaAdj := t } image_x image_y hwf hR hC
    have hpix : ∀ r c, gen_maps_pixel { cfg with thetaAdj := t } r c = gen_maps_pixel cfg r c := by
      intro r c
      simp only [gen_maps_pixel, hmode]
    rw [hout']
    congr 1
    apply Prod.ext
    · funext r c
      rw [g1, h1, hpix]
    · funext r c
      rw [g2, h2, hpix]

theorem spec_Front_origin : spec_Front 400 400 4 4 0 0 = (200, 0) := by
  have harg : Complex.arg ⟨0, -1⟩ = -(Real.pi / 2) := by
    have : (⟨0, -1⟩ : ℂ) = -Complex.I := by
      apply Complex.ext <;> simp
    rw [this, Complex.arg_neg_I]
  have hpi : Real.pi ≠ 0 := Real.pi_ne_zero
  simp only [spec_Front, c_atan2, c_acos]
  norm_num [harg, Real.arccos_zero]
  field_simp
  ring

/-- The hypotheses of `gen_maps_Front_end_to_end` hold for the 4 by 4 target over
a 400 by 400 source, where the corner cell `(0, 0)` gets `(200, 0)`. -/
theorem gen_maps_Front_end_to_end_witness :
    frontExample.wf ∧ frontExample.mode = CameraMode.FRONT ∧ 0 < frontExample.rows ∧
      0 < frontExample.cols ∧
      ∃ out : Grid × Grid, gen_maps frontExample zeroGrid zeroGrid = some out ∧
        out.1 0 0 = 200 ∧ out.2 0 0 = 0 := by
  have hwf : frontExample.wf := by
    simp only [configuration.wf, isInt, INT_MIN, INT_MAX, frontExample]; omega
  have hR : 0 < frontExample.rows := by simp [frontExample]
  have hC : 0 < frontExample.cols := by simp [frontExample]
  refine ⟨hwf, rfl, hR, hC, ?_⟩
  obtain ⟨out, hout, hcell, _⟩ :=
    gen_maps_Front_end_to_end frontExample zeroGrid zeroGrid hwf rfl hR hC
  refine ⟨out, hout, ?_⟩
  have h := hcell 0 0 (by simp [frontExample]) (by simp [frontExample])
  have hs : spec_Front (frontExample.width : ℝ) frontExample.height frontExample.rows
      frontExample.cols ((0 : Nat) : ℝ) ((0 : Nat) : ℝ) = (200, 0) := by
    have := spec_Front_origin
    simpa [frontExample] using this
  rw [hs] at h
  have a : c_round (200 : ℝ) = 200 := by
    have := c_round_intCast 200
    simpa using this
  have b : c_round (0 : ℝ) = 0 := by
    have := c_round_intCast 0
    simpa using this
  rw [h.1, h.2]
  exact ⟨a, b⟩

/-- C2. Equirectangular mode, end to end: for a configuration of C `int`s with
mode `EQUIRECTANGULAR`, `rows > 0` and `cols > 0`, `gen_maps` has a result, in
which every cell `(row, col)` of the target holds in `image_x` and `image_y` the
C roundings of the closed-form `sx` and `sy` of the specification at the angular
offset `cfg.thetaAdj`. -/
theorem gen_maps_Equirect_end_to_end (cfg : configuration) (image_x image_y : Grid)
    (hwf : cfg.wf) (hmode : cfg.mode = CameraMode.EQUIRECTANGULAR) (hR : 0 < cfg.rows)
    (hC : 0 < cfg.cols) :
    ∃ out : Grid × Grid, gen_maps cfg image_x image_y = some out ∧
      ∀ row col : Nat, (row : Int) < cfg.rows → (col : Int) < cfg.cols →
        out.1 row col
            = c_round (spec_Equirect cfg.width cfg.height cfg.rows cfg.cols cfg.thetaAdj
                row col).1 ∧
          out.2 row col
            = c_round (spec_Equirect cfg.width cfg.height cfg.rows cfg.cols cfg.thetaAdj
                row col).2 := by
  obtain ⟨out, hout, h1, h2⟩ := gen_maps_spec cfg image_x image_y hwf hR hC
  refine ⟨out, hout, ?_⟩
  intro row col hrow hcol
  have hin : row < cfg.rows.toNat ∧ col < cfg.cols.toNat := ⟨by omega, by omega⟩
  rw [h1, h2, if_pos hin, if_pos hin, (gen_maps_pixel_Equirect cfg hmode row col).1,
    (gen_maps_pixel_Equirect cfg hmode row col).2]
  exact ⟨rfl, rfl⟩

theorem spec_Equirect_origin : spec_Equirect 400 400 400 400 0 0 0 = (200, 200) := by
  have h1 : (1 - (0 : ℝ) / 400) * (Real.pi / 2) + Real.pi / 2 = Real.pi := by ring
  simp only [spec_Equirect, h1, Real.sin_pi, zero_div, zero_mul, zero_add]
  norm_num

/-- The hypotheses of `gen_maps_Equirect_end_to_end` hold for the 400 by 400
target over a 400 by 400 source, where the cell `(0, 0)` gets the image centre
`(200, 200)`. -/
theorem gen_maps_Equirect_end_to_end_witness :
    equirectExample.wf ∧ equirectExample.mode = CameraMode.EQUIRECTANGULAR ∧
      0 < equirectExample.rows ∧ 0 < equirectExample.cols ∧
      ∃ out : Grid × Grid, gen_maps equirectExample zeroGrid zeroGrid = some out ∧
        out.1 0 0 = 200 ∧ out.2 0 0 = 200 := by
  have hwf : equirectExample.wf := by
    simp only [configuration.wf, isInt, INT_MIN, INT_MAX, equirectExample]; omega
  have hR : 0 < equirectExample.rows := by simp [equirectExample]
  have hC : 0 < equirectExample.cols := by simp [equirectExample]
  refine ⟨hwf, rfl, hR, hC, ?_⟩
  obtain ⟨out, hout, hcell⟩ :=
    gen_maps_Equirect_end_to_end equirectExample zeroGrid zeroGrid hwf rfl hR hC
  refine ⟨out, hout, ?_⟩
  have h := hcell 0 0 (by simp [equirectExample]) (by simp [equirectExample])
  have hs : spec_Equirect (equirectExample.width : ℝ) equirectExample.height
      equirectExample.rows equirectExample.cols equirectExample.thetaAdj
      ((0 : Nat) : ℝ) ((0 : Nat) : ℝ) = (200, 200) := by
    have := spec_Equirect_origin
    simpa [equirectExample] using this
  rw [hs] at h
  have a : c_round (200 : ℝ) = 200 := by
    have := c_round_intCast 200
    simpa using this
  rw [h.1, h.2]
  exact ⟨a, a⟩

/-- C9. The generated coordinates stay in the closed source rectangle: for a
configuration of C `int`s with `rows > 0`, `cols > 0`, `width ≥ 0` and
`height ≥ 0`, in either mode and at every angular offset, `gen_maps` has a
result (no conversion to `int` overflows) and every cell of the target satisfies
`0 ≤ image_x[row][col] ≤ width` and `0 ≤ image_y[row][col] ≤ height`. Moreover at
every position of the unit square the equirectangular planar radius lies in
`[0, 1]` with divisor at least 1, and the front-mode value
`acos (sin theta * sin phi) / pi` lies in `[0, 1/2]`. -/
theorem gen_maps_in_source_rectangle (cfg : configuration) (image_x image_y : Grid)
    (hwf : cfg.wf) (hR : 0 < cfg.rows) (hC : 0 < cfg.cols) (hW : 0 ≤ cfg.width)
    (hH : 0 ≤ cfg.height) :
    (∃ out : Grid × Grid, gen_maps cfg image_x image_y = some out ∧
      ∀ row col : Nat, (row : Int) < cfg.rows → (col : Int) < cfg.cols →
        (0 ≤ out.1 row col ∧ out.1 row col ≤ cfg.width) ∧
          (0 ≤ out.2 row col ∧ out.2 row col ≤ cfg.height)) ∧
    (∀ (outPos : double2) (t : ℝ), 0 ≤ outPos.x → outPos.x ≤ 1 → 0 ≤ outPos.y →
      outPos.y ≤ 1 →
        (0 ≤ Real.sin (Equirect_polarCoordsSphere outPos t).phi
              / (1 - Real.cos (Equirect_polarCoordsSphere outPos t).phi) ∧
          Real.sin (Equirect_polarCoordsSphere outPos t).phi
              / (1 - Real.cos (Equirect_polarCoordsSphere outPos t).phi) ≤ 1 ∧
          1 ≤ 1 - Real.cos (Equirect_polarCoordsSphere outPos t).phi) ∧
        (0 ≤ c_acos (Real.sin (Front_theta outPos) * Real.sin (Front_phi outPos)) / M_PI ∧
          c_acos (Real.sin (Front_theta outPos) * Real.sin (Front_phi outPos)) / M_PI
            ≤ 1 / 2)) := by
  constructor
  · obtain ⟨out, hout, h1, h2⟩ := gen_maps_spec cfg image_x image_y hwf hR hC
    refine ⟨out, hout, ?_⟩
    intro row col hrow hcol
    have hin : row < cfg.rows.toNat ∧ col < cfg.cols.toNat := ⟨by omega, by omega⟩
    obtain ⟨tx, ty, ⟨a0, a1⟩, ⟨b0, b1⟩, ex, ey⟩ := gen_maps_pixel_factor cfg hR hC hrow hcol
    have hWr : (0 : ℝ) ≤ cfg.width := by exact_mod_cast hW
    have hHr : (0 : ℝ) ≤ cfg.height := by exact_mod_cast hH
    rw [h1, h2, if_pos hin, if_pos hin, ex, ey]
    refine ⟨⟨?_, ?_⟩, ⟨?_, ?_⟩⟩
    · exact le_c_round (by push_cast; exact mul_nonneg a0 hWr)
    · exact c_round_le (by nlinarith)
    · exact le_c_round (by push_cast; exact mul_nonneg b0 hHr)
    · exact c_round_le (by nlinarith)
  · intro outPos t hx0 hx1 hy0 hy1
    obtain ⟨r0, r1⟩ := Equirect_r_mem t hy0 hy1
    exact ⟨⟨r0, r1, Equirect_divisor_ge_one t hy0 hy1⟩,
      Front_phi2_over_pi_mem hx0 hx1 hy0 hy1⟩

/-- The hypotheses of `gen_maps_in_source_rectangle` hold for the 4 by 4 front
target over a 400 by 400 source. -/
theorem gen_maps_in_source_rectangle_witness :
    frontExample.wf ∧ 0 < frontExample.rows ∧ 0 < frontExample.cols ∧
      0 ≤ frontExample.width ∧ 0 ≤ frontExample.height ∧
      ∃ out : Grid × Grid, gen_maps frontExample zeroGrid zeroGrid = some out ∧
        (0 ≤ out.1 3 3 ∧ out.1 3 3 ≤ 400) ∧ (0 ≤ out.2 3 3 ∧ out.2 3 3 ≤ 400) := by
  have hwf : frontExample.wf := by
    simp only [configuration.wf, isInt, INT_MIN, INT_MAX, frontExample]; omega
  have hR : 0 < frontExample.rows := by simp [frontExample]
  have hC : 0 < frontExample.cols := by simp [frontExample]
  have hW : 0 ≤ frontExample.width := by simp [frontExample]
  have hH : 0 ≤ frontExample.height := by simp [frontExample]
  refine ⟨hwf, hR, hC, hW, hH, ?_⟩
  obtain ⟨⟨out, hout, hcell⟩, _⟩ :=
    gen_maps_in_source_rectangle frontExample zeroGrid zeroGrid hwf hR hC hW hH
  exact ⟨out, hout, hcell 3 3 (by simp [frontExample]) (by simp [frontExample])⟩

/-- C3, as stated, fails: at the normalized position `(0.5, 1.0)` with offset 0
the angle `phi` is `π / 2`, not `π`; the planar radius is 1, not 0; and for the
source extent `(2, 2)` the result is `(0, 1)`, not the centre `(1, 1)`. -/
theorem Equirect_half_one_not_centre :
    (Equirect_polarCoordsSphere ⟨1 / 2, 1⟩ 0).phi = Real.pi / 2 ∧
      (Equirect_polarCoordsSphere ⟨1 / 2, 1⟩ 0).phi ≠ Real.pi ∧
      (Equirect_polarCoordsPlane ⟨1 / 2, 1⟩ 0).r = 1 ∧
      (evaluatePixel_Equirectangular ⟨1 / 2, 1⟩ ⟨2, 2⟩ 0).x = 0 ∧
      (evaluatePixel_Equirectangular ⟨1 / 2, 1⟩ ⟨2, 2⟩ 0).y = 1 ∧
      (evaluatePixel_Equirectangular ⟨1 / 2, 1⟩ ⟨2, 2⟩ 0).x ≠ 2 / 2 := by
  have hpi := Real.pi_pos
  have hphi : (Equirect_polarCoordsSphere ⟨1 / 2, 1⟩ 0).phi = Real.pi / 2 := by
    simp only [Equirect_polarCoordsSphere, Equirect_cartesianCoordsPlane, M_PI]
    ring
  have htheta : (Equirect_polarCoordsSphere ⟨1 / 2, 1⟩ 0).theta = Real.pi := by
    simp only [Equirect_polarCoordsSphere, Equirect_cartesianCoordsPlane, M_PI]
    ring
  have hr : (Equirect_polarCoordsPlane ⟨1 / 2, 1⟩ 0).r = 1 := by
    simp only [Equirect_polarCoordsPlane, Equirect_divisor, hphi, Real.sin_pi_div_two,
      Real.cos_pi_div_two]
    norm_num
  have ht : (Equirect_polarCoordsPlane ⟨1 / 2, 1⟩ 0).theta = Real.pi := htheta
  have hx : (evaluatePixel_Equirectangular ⟨1 / 2, 1⟩ ⟨2, 2⟩ 0).x = 0 := by
    simp only [evaluatePixel_Equirectangular, hr, ht, Real.cos_pi]
    norm_num
  have hy : (evaluatePixel_Equirectangular ⟨1 / 2, 1⟩ ⟨2, 2⟩ 0).y = 1 := by
    simp only [evaluatePixel_Equirectangular, hr, ht, Real.sin_pi]
    norm_num
  refine ⟨hphi, ?_, hr, hx, hy, ?_⟩
  · rw [hphi]; linarith
  · rw [hx]; norm_num

/-- C3, amended: for every source extent `(W, H)`, `evaluatePixel_Equirectangular`
with angular offset 0 at the normalized position `(0.5, 0.0)` has `phi = π` and
planar radius `sin π / (1 - cos π) = 0`, and returns `(W / 2, H / 2)`, the image
centre. -/
theorem Equirect_half_zero_centre (W H : ℝ) :
    (Equirect_polarCoordsSphere ⟨1 / 2, 0⟩ 0).phi = Real.pi ∧
      (Equirect_polarCoordsPlane ⟨1 / 2, 0⟩ 0).r = 0 ∧
      (evaluatePixel_Equirectangular ⟨1 / 2, 0⟩ ⟨W, H⟩ 0).x = W / 2 ∧
      (evaluatePixel_Equirectangular ⟨1 / 2, 0⟩ ⟨W, H⟩ 0).y = H / 2 := by
  have hphi : (Equirect_polarCoordsSphere ⟨1 / 2, 0⟩ 0).phi = Real.pi := by
    simp only [Equirect_polarCoordsSphere, Equirect_cartesianCoordsPlane, M_PI]
    ring
  have hr : (Equirect_polarCoordsPlane ⟨1 / 2, 0⟩ 0).r = 0 := by
    simp only [Equirect_polarCoordsPlane, hphi, Real.sin_pi, zero_div]
  refine ⟨hphi, hr, ?_, ?_⟩
  · simp only [evaluatePixel_Equirectangular, hr]
    ring
  · simp only [evaluatePixel_Equirectangular, hr]
    ring

/-- C10. In `evaluatePixel_Equirectangular` the angular offset is a horizontal
shift of the output position with period 1: the result at `(x, y)` with offset
`t` is the result at `(x + t, y)` with offset 0, and the offset `t + k` with `k`
an integer gives the result of the offset `t`. -/
theorem Equirect_thetaAdj_shift (x y t : ℝ) (S : double2) (k : Int) :
    evaluatePixel_Equirectangular ⟨x, y⟩ S t = evaluatePixel_Equirectangular ⟨x + t, y⟩ S 0 ∧
      evaluatePixel_Equirectangular ⟨x, y⟩ S (t + k) = evaluatePixel_Equirectangular ⟨x, y⟩ S t := by
  constructor
  · have h : (1 - x - t) * 2 * Real.pi = (1 - (x + t) - 0) * 2 * Real.pi := by ring
    simp only [evaluatePixel_Equirectangular, Equirect_polarCoordsPlane, Equirect_divisor,
      Equirect_polarCoordsSphere, Equirect_cartesianCoordsPlane, M_PI, h]
  · have h : (1 - x - (t + k)) * 2 * Real.pi = (1 - x - t) * 2 * Real.pi - k * (2 * Real.pi) := by
      ring
    simp only [evaluatePixel_Equirectangular, Equirect_polarCoordsPlane, Equirect_divisor,
      Equirect_polarCoordsSphere, Equirect_cartesianCoordsPlane, M_PI, h,
      Real.cos_sub_int_mul_two_pi, Real.sin_sub_int_mul_two_pi]

/-! ## Option parsing -/

theorem isInt_atoi (nptr : String) : isInt (atoi nptr) := by
  unfold isInt atoi long_to_int INT_MIN INT_MAX
  have h1 := Int.emod_nonneg (strtol nptr.toList + 2147483648) (by norm_num : (4294967296 : Int) ≠ 0)
  have h2 := Int.emod_lt_of_pos (strtol nptr.toList + 2147483648)
    (by norm_num : (0 : Int) < 4294967296)
  omega

/-- What a completed option loop leaves in the configuration: each counter has
grown by the number of its options, every mode argument was known, and each
size field is either untouched (no such option) or `atoi` of an argument of its
option. -/
theorem parse_options_loop_ret (atof : String → ℝ) :
    ∀ (opts : List Opt) (po cfg : configuration),
      parse_options_loop atof po opts = Outcome.ret cfg →
        (cfg.xmap_set = po.xmap_set + opts.countP Opt.isXmap ∧
          cfg.ymap_set = po.ymap_set + opts.countP Opt.isYmap ∧
          cfg.rows_set = po.rows_set + opts.countP Opt.isRows ∧
          cfg.cols_set = po.cols_set + opts.countP Opt.isCols ∧
          cfg.height_set = po.height_set + opts.countP Opt.isHeight ∧
          cfg.width_set = po.width_set + opts.countP Opt.isWidth) ∧
        modes_known opts ∧
        ((opts.countP Opt.isRows = 0 ∧ cfg.rows = po.rows) ∨
            ∃ a, Opt.rows a ∈ opts ∧ cfg.rows = atoi a) ∧
        ((opts.countP Opt.isCols = 0 ∧ cfg.cols = po.cols) ∨
            ∃ a, Opt.cols a ∈ opts ∧ cfg.cols = atoi a) ∧
        ((opts.countP Opt.isHeight = 0 ∧ cfg.height = po.height) ∨
            ∃ a, Opt.height a ∈ opts ∧ cfg.height = atoi a) ∧
        ((opts.countP Opt.isWidth = 0 ∧ cfg.width = po.width) ∨
            ∃ a, Opt.width a ∈ opts ∧ cfg.width = atoi a) := by
  intro opts
  induction opts with
  | nil =>
    intro po cfg h
    simp only [parse_options_loop, Outcome.ret.injEq] at h
    subst h
    simp [modes_known]
  | cons o os ih =>
    intro po cfg h
    cases o <;> simp only [parse_options_loop] at h <;> try split_ifs at h
    all_goals try (exact absurd h (by simp))
    all_goals
      obtain ⟨hc, hm, hr, hcl, hh, hw⟩ := ih _ _ h
      refine ⟨?_, ?_, ?_, ?_, ?_, ?_⟩
      · simp only [List.countP_cons, Opt.isXmap, Opt.isYmap, Opt.isRows, Opt.isCols,
          Opt.isHeight, Opt.isWidth] at hc ⊢
        simp only [if_true, if_false, Bool.false_eq_true] at hc ⊢
        omega
      · intro a ha
        simp only [List.mem_cons] at ha
        rcases ha with ha | ha
        · cases ha <;> first | (left; assumption) | (right; assumption)
        · exact hm a ha
      · rcases hr with ⟨h0, h1⟩ | ⟨a, ha, h1⟩
        · first
            | (left; exact ⟨by simp [List.countP_cons, Opt.isRows, h0], h1⟩)
            | (right; exact ⟨_, List.mem_cons_self _ _, h1⟩)
        · right; exact ⟨a, List.mem_cons_of_mem _ ha, h1⟩
      · rcases hcl with ⟨h0, h1⟩ | ⟨a, ha, h1⟩
        · first
            | (left; exact ⟨by simp [List.countP_cons, Opt.isCols, h0], h1⟩)
            | (right; exact ⟨_, List.mem_cons_self _ _, h1⟩)
        · right; exact ⟨a, List.mem_cons_of_mem _ ha, h1⟩
      · rcases hh with ⟨h0, h1⟩ | ⟨a, ha, h1⟩
        · first
            | (left; exact ⟨by simp [List.countP_cons, Opt.isHeight, h0], h1⟩)
            | (right; exact ⟨_, List.mem_cons_self _ _, h1⟩)
        · right; exact ⟨a, List.mem_cons_of_mem _ ha, h1⟩
      · rcases hw with ⟨h0, h1⟩ | ⟨a, ha, h1⟩
        · first
            | (left; exact ⟨by simp [List.countP_cons, Opt.isWidth, h0], h1⟩)
            | (right; exact ⟨_, List.mem_cons_self _ _, h1⟩)
        · right; exact ⟨a, List.mem_cons_of_mem _ ha, h1⟩

/-- The option loop exits only with status 1. -/
theorem parse_options_loop_exit (atof : String → ℝ) :
    ∀ (opts : List Opt) (po : configuration) (status : Int),
      parse_options_loop atof po opts = Outcome.exit status → status = 1 := by
  intro opts
  induction opts with
  | nil =>
    intro po status h
    simp [parse_options_loop] at h
  | cons o os ih =>
    intro po status h
    cases o <;> simp only [parse_options_loop] at h <;> try split_ifs at h
    all_goals first
      | exact ih _ _ h
      | (simp only [Outcome.exit.injEq] at h; exact h.symm)

/-- The option loop exits as soon as a mode argument is not known. -/
theorem parse_options_loop_modes (atof : String → ℝ) :
    ∀ (opts : List Opt) (po : configuration), ¬ modes_known opts →
      parse_options_loop atof po opts = Outcome.exit 1 := by
  intro opts po hm
  cases h : parse_options_loop atof po opts with
  | ret cfg => exact absurd (parse_options_loop_ret atof opts po cfg h).2.1 hm
  | exit status => rw [parse_options_loop_exit atof opts po status h]

/-- What `parse_options` has checked when it returns. -/
theorem parse_options_ret (atof : String → ℝ) (po0 : configuration) (opts : List Opt)
    (rest : List String) (cfg : configuration)
    (h : parse_options atof po0 opts rest = Outcome.ret cfg) :
    mandatory_once opts ∧ modes_known opts ∧ rest = [] ∧
      (∃ a, Opt.rows a ∈ opts ∧ cfg.rows = atoi a) ∧
      (∃ a, Opt.cols a ∈ opts ∧ cfg.cols = atoi a) ∧
      (∃ a, Opt.height a ∈ opts ∧ cfg.height = atoi a) ∧
      (∃ a, Opt.width a ∈ opts ∧ cfg.width = atoi a) := by
  unfold parse_options at h
  cases hl : parse_options_loop atof (parse_options_init po0) opts with
  | exit status => rw [hl] at h; simp at h
  | ret po =>
    rw [hl] at h
    simp only at h
    split_ifs at h with h1 h2 h3 h4
    simp only [Outcome.ret.injEq] at h
    subst h
    obtain ⟨⟨c1, c2, c3, c4, c5, c6⟩, hm, hr, hc, hh, hw⟩ :=
      parse_options_loop_ret atof opts _ _ hl
    simp only [parse_options_init, zero_add] at c1 c2 c3 c4 c5 c6
    have e1 : opts.countP Opt.isXmap = 1 := by omega
    have e2 : opts.countP Opt.isYmap = 1 := by omega
    have e3 : opts.countP Opt.isRows = 1 := by omega
    have e4 : opts.countP Opt.isCols = 1 := by omega
    have e5 : opts.countP Opt.isHeight = 1 := by omega
    have e6 : opts.countP Opt.isWidth = 1 := by omega
    refine ⟨⟨e1, e2, e3, e4, e5, e6⟩, hm, by simpa using h1, ?_, ?_, ?_, ?_⟩
    · rcases hr with ⟨h0, _⟩ | hr
      · omega
      · exact hr
    · rcases hc with ⟨h0, _⟩ | hc
      · omega
      · exact hc
    · rcases hh with ⟨h0, _⟩ | hh
      · omega
      · exact hh
    · rcases hw with ⟨h0, _⟩ | hw
      · omega
      · exact hw

/-- Every exit of `parse_options` has status 1 or -1. -/
theorem parse_options_exit (atof : String → ℝ) (po0 : configuration) (opts : List Opt)
    (rest : List String) (status : Int)
    (h : parse_options atof po0 opts rest = Outcome.exit status) :
    status = 1 ∨ status = -1 := by
  unfold parse_options at h
  cases hl : parse_options_loop atof (parse_options_init po0) opts with
  | exit s =>
    rw [hl] at h
    simp only [Outcome.exit.injEq] at h
    left
    rw [← h]
    exact parse_options_loop_exit atof opts _ s hl
  | ret po =>
    rw [hl] at h
    simp only at h
    split_ifs at h <;> simp only [Outcome.exit.injEq] at h <;> omega

/-- A configuration that `parse_options` returns is made of C `int`s. -/
theorem parse_options_wf (atof : String → ℝ) (po0 : configuration) (opts : List Opt)
    (rest : List String) (cfg : configuration)
    (h : parse_options atof po0 opts rest = Outcome.ret cfg) : cfg.wf := by
  obtain ⟨_, _, _, ⟨a, _, ha⟩, ⟨b, _, hb⟩, ⟨c, _, hc⟩, ⟨d, _, hd⟩⟩ :=
    parse_options_ret atof po0 opts rest cfg h
  unfold configuration.wf
  rw [ha, hb, hc, hd]
  exact ⟨isInt_atoi a, isInt_atoi b, isInt_atoi c, isInt_atoi d⟩

/-- For a configuration of C `int`s `gen_maps` has a result, whatever the signs
of its fields. -/
theorem gen_maps_total (cfg : configuration) (image_x image_y : Grid) (hwf : cfg.wf) :
    ∃ out : Grid × Grid, gen_maps cfg image_x image_y = some out := by
  obtain ⟨out, hout, _⟩ := gen_maps_rows_spec cfg (image_x, image_y) cfg.rows.toNat
    (fun y x hy hx => gen_maps_pixel_isInt cfg hwf (by omega) (by omega) (by omega) (by omega))
  exact ⟨out, hout⟩

/-- C5. `parse_options` returns a configuration only if each of the six
mandatory options occurs exactly once, every mode argument is `front` or
`equirectangular` and no non-option argument remains; in every other case it
ends the process with a non-zero status, and `main` then exits with that status
without having allocated a grid or called `gen_maps`. -/
theorem parse_options_validates (atof : String → ℝ) (po0 : configuration) (opts : List Opt)
    (rest : List String) :
    (∀ cfg, parse_options atof po0 opts rest = Outcome.ret cfg →
        mandatory_once opts ∧ modes_known opts ∧ rest = []) ∧
      (¬ (mandatory_once opts ∧ modes_known opts ∧ rest = []) →
        ∃ status : Int, status ≠ 0 ∧ status % 256 ≠ 0 ∧
          parse_options atof po0 opts rest = Outcome.exit status ∧
          ∀ (mem_x mem_y : Grid) (fopen_y fopen_x : CString → Bool),
            main atof po0 mem_x mem_y fopen_y fopen_x opts rest
              = some { trace := [], status := status }) := by
  constructor
  · intro cfg h
    obtain ⟨a, b, c, _⟩ := parse_options_ret atof po0 opts rest cfg h
    exact ⟨a, b, c⟩
  · intro hn
    cases h : parse_options atof po0 opts rest with
    | ret cfg =>
      obtain ⟨a, b, c, _⟩ := parse_options_ret atof po0 opts rest cfg h
      exact absurd ⟨a, b, c⟩ hn
    | exit status =>
      have hs := parse_options_exit atof po0 opts rest status h
      refine ⟨status, ?_, ?_, rfl, ?_⟩
      · omega
      · omega
      · intro mem_x mem_y fopen_y fopen_x
        simp only [main, h]

/-- The arguments `-m fisheye` break the conditions of `parse_options_validates`:
the process exits with status 1 before any allocation. -/
theorem parse_options_validates_witness :
    ¬ (mandatory_once unknownModeArgs ∧ modes_known unknownModeArgs ∧ ([] : List String) = []) ∧
      ∃ status : Int, status ≠ 0 ∧ status % 256 ≠ 0 ∧
        parse_options atof_zero junkConfiguration unknownModeArgs [] = Outcome.exit status ∧
        ∀ (mem_x mem_y : Grid) (fopen_y fopen_x : CString → Bool),
          main atof_zero junkConfiguration mem_x mem_y fopen_y fopen_x unknownModeArgs []
            = some { trace := [], status := status } := by
  have hn : ¬ (mandatory_once unknownModeArgs ∧ modes_known unknownModeArgs ∧
      ([] : List String) = []) := by
    rintro ⟨_, hm, _⟩
    have := hm "fisheye" (by simp [unknownModeArgs])
    revert this
    decide
  exact ⟨hn, (parse_options_validates atof_zero junkConfiguration unknownModeArgs []).2 hn⟩

/-- When `parse_options` returns, `main` goes on to allocate, generate and
write, and exits with status 0. -/
theorem main_of_ret (atof : String → ℝ) (po0 : configuration) (mem_x mem_y : Grid)
    (fopen_y fopen_x : CString → Bool) (opts : List Opt) (rest : List String)
    (cfg : configuration) (h : parse_options atof po0 opts rest = Outcome.ret cfg) :
    ∃ out : Grid × Grid, gen_maps cfg mem_x mem_y = some out ∧
      main atof po0 mem_x mem_y fopen_y fopen_x opts rest
        = some { trace := [Event.alloc, Event.alloc, Event.generate,
                   Event.write cfg.ymap_filename
                     (pgmWrite_ASCII fopen_y cfg.ymap_filename cfg.rows cfg.cols out.2
                       cfg.ymap_filename),
                   Event.write cfg.xmap_filename
                     (pgmWrite_ASCII fopen_x cfg.xmap_filename cfg.rows cfg.cols out.1
                       cfg.xmap_filename)],
                 status := 0 } := by
  obtain ⟨out, hout⟩ := gen_maps_total cfg mem_x mem_y
    (parse_options_wf atof po0 opts rest cfg h)
  refine ⟨out, hout, ?_⟩
  simp only [main, h, hout]

theorem parse_options_six (atof : String → ℝ) (po0 : configuration) (x y r c h w : String) :
    ∃ cfg, parse_options atof po0
        [Opt.xmap x, Opt.ymap y, Opt.rows r, Opt.cols c, Opt.height h, Opt.width w] []
          = Outcome.ret cfg ∧
      cfg.rows = atoi r ∧ cfg.cols = atoi c ∧ cfg.height = atoi h ∧ cfg.width = atoi w ∧
      cfg.xmap_filename = some x ∧ cfg.ymap_filename = some y := by
  simp [parse_options, parse_options_loop, parse_options_init]

/-- C6, as stated, fails: the arguments `-r 0 -c 5000 -h -1 -w abc` are returned
as a configuration with `rows = 0`, `cols = 5000`, `height = -1` and `width = 0`,
and `main` calls `gen_maps` with it. -/
theorem parse_options_returns_unvalidated :
    ∃ cfg, parse_options atof_zero junkConfiguration unvalidatedArgs [] = Outcome.ret cfg ∧
      cfg.rows = 0 ∧ cfg.cols = 5000 ∧ cfg.height = -1 ∧ cfg.width = 0 ∧
      ¬ (cfg.width > 0 ∧ cfg.height > 0 ∧ (0 < cfg.rows ∧ cfg.rows ≤ 4500) ∧
          (0 < cfg.cols ∧ cfg.cols ≤ 4500)) ∧
      ∃ run, main atof_zero junkConfiguration zeroGrid zeroGrid fopen_ok fopen_ok
          unvalidatedArgs [] = some run ∧ Event.generate ∈ run.trace := by
  obtain ⟨cfg, h, hr, hc, hh, hw, _⟩ :=
    parse_options_six atof_zero junkConfiguration "x.pgm" "y.pgm" "0" "5000" "-1" "abc"
  have e1 : atoi "0" = 0 := by decide
  have e2 : atoi "5000" = 5000 := by decide
  have e3 : atoi "-1" = -1 := by decide
  have e4 : atoi "abc" = 0 := by decide
  rw [e1] at hr
  rw [e2] at hc
  rw [e3] at hh
  rw [e4] at hw
  refine ⟨cfg, h, hr, hc, hh, hw, ?_, ?_⟩
  · rw [hw]
    intro hcon
    exact absurd hcon.1 (by decide)
  · obtain ⟨out, _, hmain⟩ := main_of_ret atof_zero junkConfiguration zeroGrid zeroGrid
      fopen_ok fopen_ok unvalidatedArgs [] cfg h
    exact ⟨_, hmain, by simp⟩

/-- C6, amended: every configuration that `parse_options` returns has `rows`,
`cols`, `height` and `width` equal to `atoi` of an argument of its `-r`, `-c`,
`-h`, `-w` option, so each is a C `int`, and `main` calls `gen_maps` with it;
`parse_options` checks neither sign nor magnitude: whatever the six arguments
are, the mandatory options given once each are returned with the `atoi` values
of their arguments. -/
theorem parse_options_sizes_unchecked (atof : String → ℝ) (po0 : configuration) :
    (∀ (opts : List Opt) (rest : List String) (cfg : configuration),
        parse_options atof po0 opts rest = Outcome.ret cfg →
          (∃ a, Opt.rows a ∈ opts ∧ cfg.rows = atoi a) ∧
          (∃ a, Opt.cols a ∈ opts ∧ cfg.cols = atoi a) ∧
          (∃ a, Opt.height a ∈ opts ∧ cfg.height = atoi a) ∧
          (∃ a, Opt.width a ∈ opts ∧ cfg.width = atoi a) ∧
          cfg.wf ∧
          ∀ (mem_x mem_y : Grid) (fopen_y fopen_x : CString → Bool),
            ∃ run, main atof po0 mem_x mem_y fopen_y fopen_x opts rest = some run ∧
              Event.generate ∈ run.trace) ∧
      (∀ x y r c h w : String,
        ∃ cfg, parse_options atof po0
            [Opt.xmap x, Opt.ymap y, Opt.rows r, Opt.cols c, Opt.height h, Opt.width w] []
              = Outcome.ret cfg ∧
          cfg.rows = atoi r ∧ cfg.cols = atoi c ∧ cfg.height = atoi h ∧
          cfg.width = atoi w) := by
  constructor
  · intro opts rest cfg h
    obtain ⟨_, _, _, hr, hc, hh, hw⟩ := parse_options_ret atof po0 opts rest cfg h
    refine ⟨hr, hc, hh, hw, parse_options_wf atof po0 opts rest cfg h, ?_⟩
    intro mem_x mem_y fopen_y fopen_x
    obtain ⟨out, _, hmain⟩ := main_of_ret atof po0 mem_x mem_y fopen_y fopen_x opts rest cfg h
    exact ⟨_, hmain, by simp⟩
  · intro x y r c h w
    obtain ⟨cfg, h1, h2, h3, h4, h5, _⟩ := parse_options_six atof po0 x y r c h w
    exact ⟨cfg, h1, h2, h3, h4, h5⟩

/-- The arguments `-x x.pgm -y y.pgm -r 4 -c 4 -h 400 -w 400 -m front` are
returned by `parse_options`, with the sizes that
`parse_options_sizes_unchecked` gives. -/
theorem parse_options_sizes_unchecked_witness :
    ∃ cfg, parse_options atof_zero junkConfiguration frontArgs [] = Outcome.ret cfg ∧
      (∃ a, Opt.rows a ∈ frontArgs ∧ cfg.rows = atoi a) ∧
      (∃ a, Opt.cols a ∈ frontArgs ∧ cfg.cols = atoi a) ∧
      (∃ a, Opt.height a ∈ frontArgs ∧ cfg.height = atoi a) ∧
      (∃ a, Opt.width a ∈ frontArgs ∧ cfg.width = atoi a) ∧ cfg.wf := by
  have h : ∃ cfg, parse_options atof_zero junkConfiguration frontArgs [] = Outcome.ret cfg := by
    simp [parse_options, parse_options_loop, parse_options_init, frontArgs]
  obtain ⟨cfg, h⟩ := h
  obtain ⟨hr, hc, hh, hw, hwf, _⟩ :=
    (parse_options_sizes_unchecked atof_zero junkConfiguration).1 frontArgs [] cfg h
  exact ⟨cfg, h, hr, hc, hh, hw, hwf⟩

/-! ## Raster writer -/

theorem String_join_snoc (l : List String) (a : String) :
    String.join (l ++ [a]) = String.join l ++ a := by
  simp only [String.join, List.foldl_append, List.foldl_cons, List.foldl_nil]

/-- The inner loop of the writer appends the samples of the row, each followed
by a blank, and counts them. -/
theorem pgmWrite_cols_spec (image : Grid) (y : Nat) (st : String × Int) (n : Nat) :
    (List.range n).foldl (pgmWrite_cell image y) st
      = (st.1 ++ String.join ((List.range n).map (fun x => fmt_int (image y x) ++ " ")),
         st.2 + n) := by
  induction n with
  | zero => simp [String.join]
  | succ n ih =>
    rw [List.range_succ, List.foldl_append, ih, List.map_append, List.map_cons, List.map_nil,
      String_join_snoc]
    simp only [List.foldl_cons, List.foldl_nil, pgmWrite_cell, String.append_assoc,
      Nat.cast_add, Nat.cast_one, add_assoc]

/-- The outer loop of the writer appends the rows in turn. -/
theorem pgmWrite_rows_spec (cols : Int) (image : Grid) (st : String × Int) (m : Nat) :
    (List.range m).foldl (pgmWrite_row cols image) st
      = (st.1 ++ String.join ((List.range m).map (fun y =>
            String.join ((List.range cols.toNat).map (fun x => fmt_int (image y x) ++ " "))
              ++ "\n")),
         st.2 + (m : Int) * (cols.toNat : Int)) := by
  induction m with
  | zero => simp [String.join]
  | succ m ih =>
    rw [List.range_succ, List.foldl_append, ih, List.map_append, List.map_cons, List.map_nil,
      String_join_snoc]
    simp only [List.foldl_cons, List.foldl_nil, pgmWrite_row, pgmWrite_cols_spec,
      String.append_assoc, Nat.cast_add, Nat.cast_one]
    congr 1
    ring

theorem spec_pgm_samples_length (rows cols : Nat) (image : Grid) :
    (spec_pgm_samples rows cols image).length = rows * cols := by
  unfold spec_pgm_samples
  induction rows with
  | zero => simp
  | succ n ih =>
    rw [List.range_succ, List.flatMap_append, List.length_append, ih]
    simp [Nat.succ_mul]

/-- A grid above the maximum is refused before the file is opened. -/
theorem pgmWrite_ASCII_too_large (fopen : CString → Bool) (filename : CString)
    (rows cols : Int) (image : Grid) (comment_string : CString)
    (h : rows > 4500 ∨ cols > 4500) :
    pgmWrite_ASCII fopen filename rows cols image comment_string
      = { status := 0, opened := false, text := "", nwritten := 0 } := by
  unfold pgmWrite_ASCII
  rw [if_pos (by simpa [MAXROWS, MAXCOLS] using h)]

/-- C7. `pgmWrite_ASCII` returns 0 and writes nothing, without opening the
file, whenever `rows > 4500` or `cols > 4500`; whenever `0 ≤ rows ≤ 4500`,
`0 ≤ cols ≤ 4500` and the file opens, it returns 1 and writes the header `P2`,
the comment line, `cols rows` and the maximum 65535, followed by the
`rows * cols` samples `image[y][x]` in row-major order, and the count of written
values is `rows * cols`. -/
theorem pgmWrite_ASCII_spec (fopen : CString → Bool) (filename : CString) (rows cols : Int)
    (image : Grid) (comment_string : CString) :
    ((rows > 4500 ∨ cols > 4500) →
        pgmWrite_ASCII fopen filename rows cols image comment_string
          = { status := 0, opened := false, text := "", nwritten := 0 }) ∧
      (0 ≤ rows → rows ≤ 4500 → 0 ≤ cols → cols ≤ 4500 → fopen filename = true →
        pgmWrite_ASCII fopen filename rows cols image comment_string
            = { status := 1, opened := true,
                text := spec_pgm_text rows.toNat cols.toNat image comment_string,
                nwritten := rows * cols } ∧
          ((spec_pgm_samples rows.toNat cols.toNat image).length : Int) = rows * cols) := by
  constructor
  · exact pgmWrite_ASCII_too_large fopen filename rows cols image comment_string
  · intro hr0 hr1 hc0 hc1 hopen
    have hr : ((rows.toNat : Nat) : Int) = rows := Int.toNat_of_nonneg hr0
    have hc : ((cols.toNat : Nat) : Int) = cols := Int.toNat_of_nonneg hc0
    constructor
    · unfold pgmWrite_ASCII
      rw [if_neg (by simp only [MAXROWS, MAXCOLS]; omega), if_neg (by simp [hopen])]
      simp only [pgmWrite_rows_spec, spec_pgm_text, hr, hc, zero_add]
      have h65 : ∀ s : String, fmt_int 65535 ++ ("\n" ++ s) = "65535\n" ++ s := by
        intro s
        rw [← String.append_assoc]
        rfl
      cases comment_string <;>
        simp only [String.append_assoc, String.empty_append, h65]
    · rw [spec_pgm_samples_length]
      push_cast
      rw [hr, hc]

/-- A 4501 by 3 grid is refused, and a 2 by 3 grid is written, as
`pgmWrite_ASCII_spec` says. -/
theorem pgmWrite_ASCII_spec_witness :
    ((4501 : Int) > 4500 ∨ (3 : Int) > 4500) ∧
      pgmWrite_ASCII fopen_ok (some "a.pgm") 4501 3 sampleGrid (some "a.pgm")
        = { status := 0, opened := false, text := "", nwritten := 0 } ∧
      pgmWrite_ASCII fopen_ok (some "a.pgm") 2 3 sampleGrid (some "a.pgm")
        = { status := 1, opened := true,
            text := "P2\n# a.pgm \n3 2 \n65535\n-1 0 1 \n9 10 11 \n\n", nwritten := 6 } := by
  have h1 : (4501 : Int) > 4500 ∨ (3 : Int) > 4500 := Or.inl (by decide)
  refine ⟨h1, ?_, ?_⟩
  · exact (pgmWrite_ASCII_spec fopen_ok (some "a.pgm") 4501 3 sampleGrid (some "a.pgm")).1 h1
  · have h := ((pgmWrite_ASCII_spec fopen_ok (some "a.pgm") 2 3 sampleGrid (some "a.pgm")).2
      (by decide) (by decide) (by decide) (by decide) rfl).1
    rw [h]
    decide

/-! ## Main -/

/-- C8 fails on the code: with `-x x.pgm -y y.pgm -r 5000 -c 5000 -h 400 -w 400`
both calls of `pgmWrite_ASCII` return 0 without opening a file, and `main` exits
with status 0. -/
theorem main_exits_zero_after_failed_writes :
    main atof_zero junkConfiguration zeroGrid zeroGrid fopen_ok fopen_ok tooLargeArgs []
      = some { trace := [Event.alloc, Event.alloc, Event.generate,
                 Event.write (some "y.pgm")
                   { status := 0, opened := false, text := "", nwritten := 0 },
                 Event.write (some "x.pgm")
                   { status := 0, opened := false, text := "", nwritten := 0 }],
               status := 0 } := by
  obtain ⟨cfg, h, hr, hc, _, _, hx, hy⟩ :=
    parse_options_six atof_zero junkConfiguration "x.pgm" "y.pgm" "5000" "5000" "400" "400"
  have e : atoi "5000" = 5000 := by decide
  rw [e] at hr hc
  obtain ⟨out, _, hmain⟩ := main_of_ret atof_zero junkConfiguration zeroGrid zeroGrid
    fopen_ok fopen_ok tooLargeArgs [] cfg h
  have hbig : (5000 : Int) > 4500 ∨ (5000 : Int) > 4500 := Or.inl (by decide)
  rw [hmain, hr, hc, hx, hy, pgmWrite_ASCII_too_large fopen_ok _ 5000 5000 out.2 _ hbig,
    pgmWrite_ASCII_too_large fopen_ok _ 5000 5000 out.1 _ hbig]

end Projection
